import Mathlib

/-!
Verification of the notion API client (package `notion` and its
`notiontypes` support package) against its natural-language specification.

The Go source is shallowly embedded: JSON `interface{}` values become the
inductive `JValue`; Go functions returning `(T, error)` become functions
into `Except String T` (or `GoResult T` when a Go panic is also a possible
outcome); Go maps become `GoMap`, which distinguishes a nil map from an
initialized one and represents the key/value content extensionally as a
`String → Option V` function (Go map iteration order is unspecified, but
every place the code iterates a map the result is order-independent
because keys within one map are distinct, so the extensional view is
faithful).
-/

namespace Notion

/-- Embedding of a decoded JSON value (Go `interface{}` after
`encoding/json` unmarshaling): null, bool, number, string, array, object. -/
inductive JValue where
  | jnull : JValue
  | jbool : Bool → JValue
  | jnum : Int → JValue
  | jstr : String → JValue
  | jarr : List JValue → JValue
  | jobj : List (String × JValue) → JValue
deriving Repr

/-- Outcome of a Go computation that can return a value, return a
non-nil `error`, or panic. The `panic` constructor models a Go runtime
panic (e.g. a failed unchecked type assertion), which is a distinct
failure channel from a returned error. -/
inductive GoResult (α : Type) where
  | ok : α → GoResult α
  | err : String → GoResult α
  | panic : String → GoResult α
deriving Repr

/-- True exactly when the computation returned a value. -/
def GoResult.isOk {α : Type} : GoResult α → Bool
  | .ok _ => true
  | _ => false

/-- True exactly when the computation panicked. -/
def GoResult.isPanic {α : Type} : GoResult α → Bool
  | .panic _ => true
  | _ => false

/-! ### notiontypes: inline rich-text model -/

/-- Embedding of `notiontypes.Date`. Modelled from the spec: the `Date`
struct itself is not among the provided sources (only the call that
unmarshals a JSON object into it is), and the spec says only that the
"d" attribute carries a "nested date object requiring its own structured
decode" (§4.1); the model therefore keeps the raw decoded object. -/
structure Date where
  fields : List (String × JValue)
deriving Repr

/-- `notiontypes.AttrBold`, `1 << 0` (iota order from the source:
Bold, Code, Italic, StrikeThrought). -/
def AttrBold : Nat := 1

/-- `notiontypes.AttrCode`, `1 << 1`. -/
def AttrCode : Nat := 2

/-- `notiontypes.AttrItalic`, `1 << 2`. -/
def AttrItalic : Nat := 4

/-- `notiontypes.AttrStrikeThrought`, `1 << 3`. -/
def AttrStrikeThrought : Nat := 8

/-- Embedding of `notiontypes.InlineBlock`: one run of text, compact
attribute flag bits, and the link / user / date attribute slots.
Go zero values (`0`, `""`, `nil`) are `0`, `""`, `none`. -/
structure InlineBlock where
  text : String
  attrFlags : Nat
  link : String
  userID : String
  date : Option Date
deriving Repr

/-- Embedding of `notiontypes.parseAttribute`. The Go function mutates
`b`; the embedding returns the updated block. Control flow mirrors the
source: empty attribute array is an error; a non-string `a[0]` is an
error; a 1-element array is a flag switch with an error default; a
length other than 2 is an error; for length 2, codes "a"/"u" require a
string value (error otherwise), code "d" does an unchecked type
assertion `a[1].(map[string]interface{})` which panics on a non-object
value (the subsequent re-marshal of the object and unmarshal into `Date`
cannot fail for a value produced by JSON decoding, since `Date`'s decode
is modelled as accepting any JSON object, see `Date`), and any other
code is an error. -/
def parseAttribute (b : InlineBlock) (a : List JValue) : GoResult InlineBlock :=
  match a with
  | [] => .err "attribute array is empty"
  | .jstr s :: rest =>
    match rest with
    | [] =>
      if s == "b" then .ok { b with attrFlags := b.attrFlags ||| AttrBold }
      else if s == "i" then .ok { b with attrFlags := b.attrFlags ||| AttrItalic }
      else if s == "s" then .ok { b with attrFlags := b.attrFlags ||| AttrStrikeThrought }
      else if s == "c" then .ok { b with attrFlags := b.attrFlags ||| AttrCode }
      else .err ("unexpected attribute " ++ s)
    | [a1] =>
      if s == "a" then
        match a1 with
        | .jstr v => .ok { b with link := v }
        | _ => .err "value for a attribute is not string"
      else if s == "u" then
        match a1 with
        | .jstr v => .ok { b with userID := v }
        | _ => .err "value for u attribute is not string"
      else if s == "d" then
        match a1 with
        | .jobj fs => .ok { b with date := some { fields := fs } }
        | _ => .panic "interface conversion: interface is not map[string]interface"
      else .err ("unexpected attribute " ++ s)
    | _ :: _ :: _ => .err "len(a) is not 2"
  | _ :: _ => .err "a[0] is not string"

/-- Embedding of `notiontypes.parseAttributes`: left-to-right pass over
the raw attribute entries, each of which must itself be an array; the
first failure aborts. -/
def parseAttributes (b : InlineBlock) : List JValue → GoResult InlineBlock
  | [] => .ok b
  | rawAttr :: rest =>
    match rawAttr with
    | .jarr attrList =>
      match parseAttribute b attrList with
      | .ok b2 => parseAttributes b2 rest
      | .err e => .err e
      | .panic p => .panic p
    | _ => .err "rawAttr is not an array"

/-- Embedding of `notiontypes.parseInlineBlock`: a span entry is a
1-element array `[text]` or a 2-element array `[text, attrs]`; anything
else is an error, mirroring the source's length and type checks in
order. -/
def parseInlineBlock (a : List JValue) : GoResult InlineBlock :=
  match a with
  | [] => .err "a is empty"
  | [a0] =>
    match a0 with
    | .jstr s => .ok { text := s, attrFlags := 0, link := "", userID := "", date := none }
    | _ => .err "a is of length 1 but a[0] is not string"
  | [a0, a1] =>
    match a0 with
    | .jstr s =>
      match a1 with
      | .jarr attrs =>
        parseAttributes { text := s, attrFlags := 0, link := "", userID := "", date := none } attrs
      | _ => .err "a[1] is not an array"
    | _ => .err "a[0] is not string"
  | _ => .err "a is of length != 2"

/-- Embedding of the loop body of `notiontypes.parseInlineBlocks`:
each top-level element must be an array and must parse as a span entry;
the first failure aborts with no partial result. -/
def parseInlineBlockList : List JValue → GoResult (List InlineBlock)
  | [] => .ok []
  | v :: rest =>
    match v with
    | .jarr a2 =>
      match parseInlineBlock a2 with
      | .ok block =>
        match parseInlineBlockList rest with
        | .ok res => .ok (block :: res)
        | .err e => .err e
        | .panic p => .panic p
      | .err e => .err e
      | .panic p => .panic p
    | _ => .err "v is not an array"

/-- Embedding of `notiontypes.parseInlineBlocks`: the raw value must be
a non-empty array of span entries. -/
def parseInlineBlocks (raw : JValue) : GoResult (List InlineBlock) :=
  match raw with
  | .jarr a =>
    if a.isEmpty then .err "raw is empty"
    else parseInlineBlockList a
  | _ => .err "raw is not an array"

/-! ### notiontypes: block and record-map model -/

/-- Embedding of a Go `map[string]V`. A nil map is distinguished from an
initialized one (`make`) because the source distinguishes them; the
content of an initialized map is represented extensionally as a lookup
function (reads from a nil map yield the zero value, i.e. `none`). -/
inductive GoMap (V : Type) where
  | nil : GoMap V
  | mk : (String → Option V) → GoMap V

/-- Go map read `m[k]`: `none` both for a nil map and for an absent key. -/
def GoMap.lookup {V : Type} : GoMap V → String → Option V
  | .nil, _ => none
  | .mk f, k => f k

/-- True exactly for the nil (never-`make`d) map. -/
def GoMap.isNil {V : Type} : GoMap V → Bool
  | .nil => true
  | .mk _ => false

/-- Wire fields of `notiontypes.Block` that the embedded operations can
read. The remaining fields of the source struct (timestamps, per-type
format sub-records, file/view/discussion id lists, bookmark/image/code
payload strings, …) are inert data: no operation embedded here reads
them, so they are elided from the model. -/
structure BlockFields where
  alive : Bool
  contentIDs : List String
  id : String
  parentID : String
  parentTable : String
  properties : List (String × JValue)
  type : String
  version : Int
  title : String

/-- Embedding of `notiontypes.Block`: the wire fields plus the two
derived-on-resolve fields `Content` (resolved children) and
`InlineContent` (parsed rich-text spans). Recursive because `Content`
holds blocks. -/
inductive Block where
  | mk : BlockFields → List Block → List InlineBlock → Block

/-- Wire fields of a block. -/
def Block.fields : Block → BlockFields
  | .mk f _ _ => f

/-- Resolved children (`Content`), populated by the resolver. -/
def Block.content : Block → List Block
  | .mk _ c _ => c

/-- Parsed rich-text spans (`InlineContent`), populated by the resolver. -/
def Block.inlineContent : Block → List InlineBlock
  | .mk _ _ i => i

/-- Embedding of `notiontypes.BlockWithRole`: a role tag plus a block
pointer, which may be nil (`none`). -/
structure BlockWithRole where
  role : String
  value : Option Block

/-- Embedding of `notiontypes.SpaceWithRole`. Modelled from the spec:
the type is not among the provided sources; per §3 a record-with-metadata
is "a role tag plus the typed value, or an absent/null value", so the
typed value is kept opaque. -/
structure SpaceWithRole where
  role : String
  value : Option String

/-- Embedding of `notiontypes.UserWithRole`; modelled from the spec like
`SpaceWithRole`. -/
structure UserWithRole where
  role : String
  value : Option String

/-- Embedding of `notiontypes.CollectionWithRole`; modelled from the
spec like `SpaceWithRole`. -/
structure CollectionWithRole where
  role : String
  value : Option String

/-- Embedding of `notiontypes.CollectionViewWithRole`; modelled from the
spec like `SpaceWithRole`. -/
structure CollectionViewWithRole where
  role : String
  value : Option String

/-- Embedding of `notiontypes.RecordMap`: one map per entity category. -/
structure RecordMap where
  blocks : GoMap BlockWithRole
  space : GoMap SpaceWithRole
  users : GoMap UserWithRole
  collections : GoMap CollectionWithRole
  collectionViews : GoMap CollectionViewWithRole

/-- Copy every key of `m` over `base`, overwriting existing keys
(`result[k] = v` for each `k, v` in `m`). Go iterates `m` in
unspecified order, but since keys within one map are distinct the
resulting map is this pointwise override regardless of order. -/
def overrideLookup {V : Type} (base : String → Option V) (m : GoMap V) :
    String → Option V :=
  fun k =>
    match m.lookup k with
    | some v => some v
    | none => base k

/-- One iteration of the `mergeRecordMaps` loop: copy all five category
maps of `rm` into the accumulator. -/
def mergeStep (acc : RecordMap) (rm : RecordMap) : RecordMap :=
  { blocks := .mk (overrideLookup (acc.blocks.lookup) rm.blocks)
    space := .mk (overrideLookup (acc.space.lookup) rm.space)
    users := .mk (overrideLookup (acc.users.lookup) rm.users)
    collections := .mk (overrideLookup (acc.collections.lookup) rm.collections)
    collectionViews := .mk (overrideLookup (acc.collectionViews.lookup) rm.collectionViews) }

/-- The accumulator `mergeRecordMaps` starts from: five freshly `make`d
(initialized, empty) maps. The Go source passes the capacity hint
`50*len(rms)-1` to `make` for the block map; a map capacity hint is
semantically inert (the Go spec's negative-size run-time panic applies
to slices and channels only, and the runtime clamps an out-of-range map
hint to 0), so an empty input sequence, where the hint is -1, still
yields initialized empty maps. -/
def mergeInit : RecordMap :=
  { blocks := .mk fun _ => none
    space := .mk fun _ => none
    users := .mk fun _ => none
    collections := .mk fun _ => none
    collectionViews := .mk fun _ => none }

/-- Embedding of `mergeRecordMaps` (client.go): fold the partial maps in
sequence order into a fresh accumulator; the Go function's error result
is always nil, hence always `.ok`. -/
def mergeRecordMaps (rms : List RecordMap) : Except String RecordMap :=
  .ok (rms.foldl mergeStep mergeInit)

/-- Lookup a property value by key in a block's decoded `Properties`
map. -/
def propLookup (props : List (String × JValue)) (k : String) : Option JValue :=
  (props.find? (fun p => p.fst == k)).map (fun p => p.snd)

/-- Embedding of `notiontypes.ResolveBlock`. Modelled from the spec: the
function is not among the provided sources (only its call site in
`parseBlockFromRecordMaps` is). Per §4.3: resolve each id in
`contentIDs` to its block, in order, recursively resolving each child,
a missing child id or a failed child resolution being a hard failure
(the leftmost failure is reported); decode the block's
`properties.title` rich-text payload through the inline parser into
`inlineContent`, a parse failure (error or panic) failing the whole
resolution; the original has no cycle guard, so the recursion carries
explicit fuel whose exhaustion models divergence on cyclic data. -/
def ResolveBlock (blocks : String → Option Block) : Nat → Block → Except String Block
  | 0, _ => .error "resolution fuel exhausted"
  | fuel + 1, b =>
    let kids : Except String (List Block) :=
      b.fields.contentIDs.foldr
        (fun cid acc =>
          match blocks cid with
          | none => .error ("notion: missing block " ++ cid)
          | some child =>
            match ResolveBlock blocks fuel child with
            | .error e => .error e
            | .ok c =>
              match acc with
              | .error e => .error e
              | .ok cs => .ok (c :: cs))
        (Except.ok [])
    match kids with
    | .error e => .error e
    | .ok resolvedKids =>
      match propLookup b.fields.properties "title" with
      | none => .ok (.mk b.fields resolvedKids b.inlineContent)
      | some raw =>
        match parseInlineBlocks raw with
        | .ok spans => .ok (.mk b.fields resolvedKids spans)
        | .err e => .error e
        | .panic p => .error ("panic: " ++ p)

/-- The flat id → block map `parseBlockFromRecordMaps` builds from the
merged record map (`blocks[k] = v.Value`); an entry whose value pointer
is nil is treated as missing by the modelled resolver. -/
def recordMapBlocks (rm : RecordMap) : String → Option Block :=
  fun k => (rm.blocks.lookup k).bind (fun v => v.value)

/-- Embedding of `Client.parseBlockFromRecordMaps`: merge the responses,
look the root id up in the merged block category (failing with
"notion: missing block id in block list" when absent), and resolve the
block tree from the flat map. A present entry whose block pointer is nil
also fails (modelled from the spec, which makes a null record value
"not authorized / not found"). -/
def parseBlockFromRecordMaps (rfuel : Nat) (blockID : String)
    (responses : List RecordMap) : Except String Block :=
  match mergeRecordMaps responses with
  | .error e => .error e
  | .ok rm =>
    match rm.blocks.lookup blockID with
    | none => .error "notion: missing block id in block list"
    | some blockBlock =>
      match blockBlock.value with
      | none => .error "notion: nil block value"
      | some block =>
        match ResolveBlock (recordMapBlocks rm) rfuel block with
        | .error e => .error ("resolveBlock failed: " ++ e)
        | .ok b => .ok b

/-! ### client: pagination driver -/

/-- Embedding of `StackPosition`. Modelled from the spec: the type is
not among the provided sources; the cursor is "opaque" and the source
only ever tests the emptiness of the stack, so a position marker is an
opaque index. -/
structure StackPosition where
  index : Int
deriving DecidableEq, Repr

/-- Embedding of `Cursor`: a stack of position markers, round-tripped
unmodified between a response and the next request; an empty stack
signals the final page. -/
structure Cursor where
  stack : List (List StackPosition)
deriving DecidableEq, Repr

/-- Embedding of `loadPageChunkRequest` (wire shape
`{pageId, limit, cursor, verticalColumns}`). -/
structure loadPageChunkRequest where
  pageID : String
  limit : Int
  cursor : Cursor
  verticalColumns : Bool

/-- Embedding of `loadPageChunkResponse` (wire shape
`{recordMap, cursor}`). -/
structure loadPageChunkResponse where
  recordMap : RecordMap
  cursor : Cursor

/-- The transport-plus-decode collaborator of the pagination driver: the
n-th `loadPageChunk` round trip either yields a decoded response or
fails (post error or unmarshal error, both of which the driver treats
alike by aborting). -/
def ChunkServer : Type := Nat → Except String loadPageChunkResponse

/-- The initial `loadPageChunkRequest` built by `Client.GetBlock`:
the requested block id, the fixed limit 50, an empty cursor stack, and
`verticalColumns` left at its zero value `false`. -/
def initialChunkRequest (blockID : String) : loadPageChunkRequest :=
  { pageID := blockID, limit := 50, cursor := { stack := [] }, verticalColumns := false }

/-- Embedding of the `for` loop of `Client.GetBlock`. `n` counts the
round trips already made, `lp` is the request about to be posted,
`results` accumulates the partial record maps, and `reqs` is the trace
of requests issued (a ghost accumulator: the source posts each `lp` to
the wire, and the trace records exactly those posts). One iteration
posts `lp`, appends the response's record map, replaces the request's
cursor with the response's cursor, and exits exactly when the returned
cursor's stack is empty. Fuel bounds the recursion; its exhaustion
models a driver that never sees an empty cursor and loops forever. -/
def getBlockLoop (server : ChunkServer) :
    Nat → Nat → loadPageChunkRequest → List RecordMap → List loadPageChunkRequest →
    Except String (List RecordMap × List loadPageChunkRequest)
  | 0, _, _, _, _ => .error "pagination loop does not terminate"
  | fuel + 1, n, lp, results, reqs =>
    match server n with
    | .error e => .error e
    | .ok r =>
      let results2 := results ++ [r.recordMap]
      let reqs2 := reqs ++ [lp]
      if r.cursor.stack.isEmpty then .ok (results2, reqs2)
      else getBlockLoop server fuel (n + 1) { lp with cursor := r.cursor } results2 reqs2

/-- Embedding of `Client.GetBlock`: run the pagination loop starting
from `initialChunkRequest`, then hand the accumulated partial record
maps to `parseBlockFromRecordMaps`. `rfuel` is the resolution fuel of
the modelled resolver. -/
def GetBlock (server : ChunkServer) (fuel rfuel : Nat) (blockID : String) :
    Except String Block :=
  match getBlockLoop server fuel 0 (initialChunkRequest blockID) [] [] with
  | .error e => .error e
  | .ok (results, _) => parseBlockFromRecordMaps rfuel blockID results

/-- Embedding of `Page`. Modelled from the spec / the call-site literal
`&Page{Block: b}` in `GetPage`: a wrapper holding a possibly-nil block
pointer. -/
structure Page where
  block : Option Block

/-- Embedding of `Client.GetPage`: `b, err := c.GetBlock(pageId);
return &Page{Block: b}, err`. The returned pointer is always non-nil
(`some`); on a `GetBlock` failure the error is passed through unchanged
and the page wraps the nil block pointer `GetBlock` returned. The pair
models Go's two return values. -/
def GetPage (server : ChunkServer) (fuel rfuel : Nat) (pageId : String) :
    Option Page × Option String :=
  match GetBlock server fuel rfuel pageId with
  | .ok b => (some { block := some b }, none)
  | .error e => (some { block := none }, some e)

/-! ### client: mutation -/

/-- Embedding of the `operation` struct (wire shape
`{id, table, path, command, args}`). -/
structure operation where
  id : String
  table : String
  path : List String
  command : String
  args : List (List String)
deriving DecidableEq, Repr

/-- Embedding of `submitTransactionRequest` (wire shape
`{operations: [...]}`). -/
structure submitTransactionRequest where
  operations : List operation
deriving DecidableEq, Repr

/-- Embedding of Go `strings.Split(s, ".")` on the character list of
`s`: split around each dot; no dots yields the one-element list holding
the input (the empty input yields `[[]]`, matching
`strings.Split("", ".") = [""]`). -/
def goSplitDot : List Char → List (List Char)
  | [] => [[]]
  | c :: rest =>
    if c = '.' then [] :: goSplitDot rest
    else
      match goSplitDot rest with
      | [] => [[c]]
      | p :: ps => (c :: p) :: ps

/-- Go `strings.Split(s, ".")` as a function on `String`. -/
def stringsSplitDot (s : String) : List String :=
  (goSplitDot s.data).map String.mk

/-- The single-operation transaction `Client.UpdateBlock` builds:
id = the block id, table "block", path = the dotted path split at each
dot, command "set", args `[[value]]`. -/
def updateBlockRequest (blockID path value : String) : submitTransactionRequest :=
  { operations :=
      [{ id := blockID
         table := "block"
         path := stringsSplitDot path
         command := "set"
         args := [[value]] }] }

/-- Embedding of `Client.UpdateBlock`: post `updateBlockRequest` as one
transaction and surface a post failure as-is (`some e`); on success the
response body is ignored and nil (`none`) is returned. The `post`
argument is the transport collaborator. -/
def UpdateBlock (post : submitTransactionRequest → Except String String)
    (blockID path value : String) : Option String :=
  match post (updateBlockRequest blockID path value) with
  | .error e => some e
  | .ok _ => none

/-! ### Specification-side predicates

The spec's input grammar for the inline rich-text format (§4.1), written
independently of the parser so that "parsing succeeds exactly on
well-formed input" is a meaningful statement. -/

/-- A well-formed attribute entry, unwrapped: `[code]` with a simple
flag code, or `[code, value]` with "a"/"u" and a string value or "d"
and an object value. -/
def goodAttrL : List JValue → Bool
  | [.jstr s] => s == "b" || s == "i" || s == "s" || s == "c"
  | [.jstr s, v] =>
    ((s == "a" || s == "u") && (match v with | .jstr _ => true | _ => false)) ||
    (s == "d" && (match v with | .jobj _ => true | _ => false))
  | _ => false

/-- A well-formed attribute entry as a JSON value: an array satisfying
`goodAttrL`. -/
def attrOk (v : JValue) : Bool :=
  match v with
  | .jarr l => goodAttrL l
  | _ => false

/-- A well-formed span entry, unwrapped: `[text]` or `[text, attrs]`
with every attribute entry well-formed. -/
def goodEntryL : List JValue → Bool
  | [.jstr _] => true
  | [.jstr _, .jarr attrs] => attrs.all attrOk
  | _ => false

/-- A well-formed span entry as a JSON value. -/
def entryOk (v : JValue) : Bool :=
  match v with
  | .jarr l => goodEntryL l
  | _ => false

/-- The spec's input shape for one rich-text property: a non-empty
array of well-formed span entries. -/
def goodTop : JValue → Bool
  | .jarr entries => !entries.isEmpty && entries.all entryOk
  | _ => false

/-- An attribute entry that drives the parser into the unchecked
`a[1].(map[string]interface{})` type assertion with a non-object value:
`["d", v]` where `v` is not a JSON object. -/
def badDAttrL : List JValue → Bool
  | [.jstr s, v] => s == "d" && (match v with | .jobj _ => false | _ => true)
  | _ => false

/-- No panic-triggering date attribute inside one attribute entry. -/
def attrNoBadD (v : JValue) : Bool :=
  match v with
  | .jarr l => !badDAttrL l
  | _ => true

/-- No panic-triggering date attribute inside one span entry. -/
def entryNoBadD : List JValue → Bool
  | [_, .jarr attrs] => attrs.all attrNoBadD
  | _ => true

/-- No panic-triggering date attribute inside one top-level element. -/
def topEntryNoBadD (v : JValue) : Bool :=
  match v with
  | .jarr a => entryNoBadD a
  | _ => true

/-- No panic-triggering date attribute anywhere in the input. -/
def topNoBadD : JValue → Bool
  | .jarr entries => entries.all topEntryNoBadD
  | _ => true

/-- An attribute entry (unwrapped) carrying one of the three exclusive
codes "a" / "u" / "d" in value-carrying (2-element) position. -/
def exclAttrL : List JValue → Bool
  | [.jstr s, _] => s == "a" || s == "u" || s == "d"
  | _ => false

/-- An attribute entry as a JSON value carrying an exclusive code. -/
def exclAttr (v : JValue) : Bool :=
  match v with
  | .jarr l => exclAttrL l
  | _ => false

/-- How many exclusive (link/user/date) attribute entries a span entry
carries. -/
def entryExclCount : List JValue → Nat
  | [_, .jarr attrs] => attrs.countP exclAttr
  | _ => 0

/-- A span entry carrying at most one exclusive attribute entry. -/
def entryExclOk (v : JValue) : Bool :=
  match v with
  | .jarr a => decide (entryExclCount a ≤ 1)
  | _ => true

/-- Every span entry of the input carries at most one exclusive
attribute entry. -/
def exclPerEntryOk : JValue → Bool
  | .jarr entries => entries.all entryExclOk
  | _ => true

/-- How many of the mutually-exclusive fields {Link, UserID, Date} are
set (non-empty / non-nil) on a parsed span. -/
def exclFieldCount (b : InlineBlock) : Nat :=
  (if b.link = "" then 0 else 1) +
  (if b.userID = "" then 0 else 1) +
  (if b.date.isSome then 1 else 0)

/-- The value held by the last map in `ms` that contains `k`, if any:
the spec's "last-write-wins" reference semantics, computed by scanning
the sequence from the end. -/
def lastLookup {V : Type} (ms : List (GoMap V)) (k : String) : Option V :=
  ms.reverse.findSome? (fun m => m.lookup k)

/-- Two category maps with no key in common. -/
def GoMap.Disjoint {V : Type} (m1 m2 : GoMap V) : Prop :=
  ∀ k, m1.lookup k = none ∨ m2.lookup k = none

/-- Two record maps with no key in common in any category. -/
def RecordMap.Disjoint (r1 r2 : RecordMap) : Prop :=
  GoMap.Disjoint r1.blocks r2.blocks ∧
  GoMap.Disjoint r1.space r2.space ∧
  GoMap.Disjoint r1.users r2.users ∧
  GoMap.Disjoint r1.collections r2.collections ∧
  GoMap.Disjoint r1.collectionViews r2.collectionViews

/-- Join character-list fragments with a dot between consecutive
fragments: the inverse direction of splitting a path at each dot. -/
def dotJoin : List (List Char) → List Char
  | [] => []
  | [p] => p
  | p :: ps => p ++ '.' :: dotJoin ps

/-! ### Concrete fixtures used by witnesses and counterexamples -/

/-- First stub cursor: a non-empty position stack. -/
def stubCursor1 : Cursor := { stack := [[{ index := 1 }]] }

/-- Second stub cursor: a different non-empty position stack. -/
def stubCursor2 : Cursor := { stack := [[{ index := 2 }], [{ index := 3 }]] }

/-- The spec's pagination stub: cursor stacks `[nonEmpty, nonEmpty,
empty]` across the first three calls, and (so that early termination is
observable) yet another page with a non-empty cursor were a fourth call
ever issued. -/
def stubChunkServer (rm0 rm1 rm2 : RecordMap) : ChunkServer := fun n =>
  if n = 0 then .ok { recordMap := rm0, cursor := stubCursor1 }
  else if n = 1 then .ok { recordMap := rm1, cursor := stubCursor2 }
  else if n = 2 then .ok { recordMap := rm2, cursor := { stack := [] } }
  else .ok { recordMap := rm0, cursor := stubCursor1 }

/-- A transport that fails every round trip. -/
def failChunkServer : ChunkServer := fun _ => .error "boom"

/-- Fixture: a childless block with id "a". -/
def wBlockA : Block :=
  .mk { alive := true, contentIDs := [], id := "a", parentID := "r",
        parentTable := "block", properties := [], type := "text",
        version := 1, title := "" } [] []

/-- Fixture: a root block with id "r" and one child id "a". -/
def wBlockR : Block :=
  .mk { alive := true, contentIDs := ["a"], id := "r", parentID := "",
        parentTable := "space", properties := [], type := "page",
        version := 1, title := "" } [] []

/-- Fixture: the root record. -/
def wBWRr : BlockWithRole := { role := "reader", value := some wBlockR }

/-- Fixture: the child record. -/
def wBWRa : BlockWithRole := { role := "reader", value := some wBlockA }

/-- Fixture: a partial record map holding the two block records (the
other categories are nil maps, as a decoded response without those
categories would have them). -/
def wRecordMap : RecordMap :=
  { blocks := .mk (fun k => if k = "r" then some wBWRr else if k = "a" then some wBWRa else none)
    space := .nil
    users := .nil
    collections := .nil
    collectionViews := .nil }

/-- Fixture: the record map obtained by merging `[wRecordMap]`. -/
def wMerged : RecordMap := mergeStep mergeInit wRecordMap

/-- Fixture: the resolved tree rooted at "r" — the root with the child
attached. -/
def wResolved : Block := .mk wBlockR.fields [wBlockA] []

/-- Fixture: an empty record map value whose categories are initialized
and empty. -/
def wEmptyRM : RecordMap := mergeInit

/-- Fixture for the merge-algebra witness: a record map whose block
category holds the single key "a". -/
def w8A : RecordMap :=
  { blocks := .mk (fun k => if k = "a" then some { role := "ra", value := none } else none)
    space := .mk fun _ => none
    users := .mk fun _ => none
    collections := .mk fun _ => none
    collectionViews := .mk fun _ => none }

/-- Fixture for the merge-algebra witness: a record map whose block
category holds the single key "b". -/
def w8B : RecordMap :=
  { blocks := .mk (fun k => if k = "b" then some { role := "rb", value := none } else none)
    space := .mk fun _ => none
    users := .mk fun _ => none
    collections := .mk fun _ => none
    collectionViews := .mk fun _ => none }

/-- Fixture for the merge-algebra witness: a record map whose block
category holds the single key "c". -/
def w8C : RecordMap :=
  { blocks := .mk (fun k => if k = "c" then some { role := "rc", value := none } else none)
    space := .mk fun _ => none
    users := .mk fun _ => none
    collections := .mk fun _ => none
    collectionViews := .mk fun _ => none }

/-- Fixture: the merge of `[w8A, w8B]`. -/
def w8AB : RecordMap := List.foldl mergeStep mergeInit [w8A, w8B]

/-- Fixture: the merge of `[w8B, w8C]`. -/
def w8BC : RecordMap := List.foldl mergeStep mergeInit [w8B, w8C]

/-- Fixture: the merge of `[w8A, w8B, w8C]`. -/
def w8ABC : RecordMap := List.foldl mergeStep mergeInit [w8A, w8B, w8C]

/-! ### Lemmas: the inline parser succeeds exactly on well-formed input -/

lemma parseAttribute_isOk (b : InlineBlock) (a : List JValue) :
    (parseAttribute b a).isOk = goodAttrL a := by
  rcases a with _ | ⟨a0, rest⟩
  · rfl
  rcases a0 with _ | _ | _ | s | l | fs <;>
    rcases rest with _ | ⟨a1, rest2⟩ <;>
      (try rcases rest2 with _ | ⟨a2, rest3⟩) <;>
        (try rfl)
  · -- [.jstr s] : flag switch
    cases hb : s == "b" <;> cases hi : s == "i" <;> cases hs : s == "s" <;>
      cases hc : s == "c" <;>
        simp [parseAttribute, goodAttrL, GoResult.isOk, hb, hi, hs, hc]
  · -- [.jstr s, a1] : exclusive-slot switch
    by_cases ha : s = "a"
    · subst ha; rcases a1 <;> simp [parseAttribute, goodAttrL, GoResult.isOk]
    · by_cases hu : s = "u"
      · subst hu; rcases a1 <;> simp [parseAttribute, goodAttrL, GoResult.isOk]
      · by_cases hd : s = "d"
        · subst hd; rcases a1 <;> simp [parseAttribute, goodAttrL, GoResult.isOk]
        · rcases a1 <;> simp [parseAttribute, goodAttrL, GoResult.isOk, ha, hu, hd]

lemma parseAttributes_isOk : ∀ (attrs : List JValue) (b : InlineBlock),
    (parseAttributes b attrs).isOk = attrs.all attrOk := by
  intro attrs
  induction attrs with
  | nil => intro b; rfl
  | cons hd tl ih =>
    intro b
    rcases hd with _ | _ | _ | s | l | fs <;>
      (try simp [parseAttributes, attrOk, List.all_cons, GoResult.isOk])
    cases hpa : parseAttribute b l with
    | ok b2 =>
      have hg : goodAttrL l = true := by rw [← parseAttribute_isOk b l, hpa]; rfl
      cases hrec : parseAttributes b2 tl with
      | ok b3 =>
        have ht : tl.all attrOk = true := by rw [← ih b2, hrec]; rfl
        simp [hpa, hrec, hg, ht, GoResult.isOk]
      | err e =>
        have ht : tl.all attrOk = false := by rw [← ih b2, hrec]; rfl
        simp [hpa, hrec, hg, ht, GoResult.isOk]
      | panic p =>
        have ht : tl.all attrOk = false := by rw [← ih b2, hrec]; rfl
        simp [hpa, hrec, hg, ht, GoResult.isOk]
    | err e =>
      have hg : goodAttrL l = false := by rw [← parseAttribute_isOk b l, hpa]; rfl
      simp [hpa, hg, GoResult.isOk]
    | panic p =>
      have hg : goodAttrL l = false := by rw [← parseAttribute_isOk b l, hpa]; rfl
      simp [hpa, hg, GoResult.isOk]

lemma parseInlineBlock_isOk (a : List JValue) :
    (parseInlineBlock a).isOk = goodEntryL a := by
  rcases a with _ | ⟨a0, rest⟩
  · rfl
  rcases rest with _ | ⟨a1, rest2⟩
  · rcases a0 <;> rfl
  rcases rest2 with _ | ⟨a2, rest3⟩
  · rcases a0 <;> rcases a1 <;> (try rfl)
    all_goals simp [parseInlineBlock, goodEntryL, parseAttributes_isOk]
  · rcases a0 <;> rcases a1 <;> rfl

lemma parseInlineBlockList_isOk : ∀ l : List JValue,
    (parseInlineBlockList l).isOk = l.all entryOk := by
  intro l
  induction l with
  | nil => rfl
  | cons hd tl ih =>
    rcases hd with _ | _ | _ | s | a2 | fs <;>
      (try simp [parseInlineBlockList, entryOk, List.all_cons, GoResult.isOk])
    cases hpb : parseInlineBlock a2 with
    | ok blk =>
      have hg : goodEntryL a2 = true := by rw [← parseInlineBlock_isOk a2, hpb]; rfl
      cases hrest : parseInlineBlockList tl with
      | ok res =>
        have ht : tl.all entryOk = true := by rw [← ih, hrest]; rfl
        simp [hpb, hrest, hg, ht, GoResult.isOk]
      | err e =>
        have ht : tl.all entryOk = false := by rw [← ih, hrest]; rfl
        simp [hpb, hrest, hg, ht, GoResult.isOk]
      | panic p =>
        have ht : tl.all entryOk = false := by rw [← ih, hrest]; rfl
        simp [hpb, hrest, hg, ht, GoResult.isOk]
    | err e =>
      have hg : goodEntryL a2 = false := by rw [← parseInlineBlock_isOk a2, hpb]; rfl
      simp [hpb, hg, GoResult.isOk]
    | panic p =>
      have hg : goodEntryL a2 = false := by rw [← parseInlineBlock_isOk a2, hpb]; rfl
      simp [hpb, hg, GoResult.isOk]

lemma parseInlineBlocks_isOk (raw : JValue) :
    (parseInlineBlocks raw).isOk = goodTop raw := by
  rcases raw with _ | _ | _ | s | a | fs <;> (try rfl)
  cases hae : a.isEmpty
  · simp [parseInlineBlocks, goodTop, hae, parseInlineBlockList_isOk]
  · simp [parseInlineBlocks, goodTop, hae, GoResult.isOk]

/-! ### Lemmas: where the parser can panic -/

lemma parseAttribute_isPanic (b : InlineBlock) (a : List JValue) :
    (parseAttribute b a).isPanic = badDAttrL a := by
  rcases a with _ | ⟨a0, rest⟩
  · rfl
  rcases a0 with _ | _ | _ | s | l | fs <;>
    rcases rest with _ | ⟨a1, rest2⟩ <;>
      (try rcases rest2 with _ | ⟨a2, rest3⟩) <;>
        (try rfl)
  · cases hb : s == "b" <;> cases hi : s == "i" <;> cases hs : s == "s" <;>
      cases hc : s == "c" <;>
        simp [parseAttribute, badDAttrL, GoResult.isPanic, hb, hi, hs, hc]
  · by_cases ha : s = "a"
    · subst ha; rcases a1 <;> simp [parseAttribute, badDAttrL, GoResult.isPanic]
    · by_cases hu : s = "u"
      · subst hu; rcases a1 <;> simp [parseAttribute, badDAttrL, GoResult.isPanic]
      · by_cases hd : s = "d"
        · subst hd; rcases a1 <;> simp [parseAttribute, badDAttrL, GoResult.isPanic]
        · rcases a1 <;> simp [parseAttribute, badDAttrL, GoResult.isPanic, ha, hu, hd]

lemma parseAttributes_noPanic : ∀ (attrs : List JValue) (b : InlineBlock),
    attrs.all attrNoBadD = true → (parseAttributes b attrs).isPanic = false := by
  intro attrs
  induction attrs with
  | nil => intro b _; rfl
  | cons hd tl ih =>
    intro b hall
    rw [List.all_cons, Bool.and_eq_true] at hall
    rcases hd with _ | _ | _ | s | l | fs <;> (try rfl)
    have h1 : badDAttrL l = false := by
      have := hall.1
      simp [attrNoBadD] at this
      exact this
    cases hpa : parseAttribute b l with
    | ok b2 =>
      simp only [parseAttributes, hpa]
      exact ih b2 hall.2
    | err e => simp [parseAttributes, hpa, GoResult.isPanic]
    | panic p =>
      have hcontra : badDAttrL l = true := by rw [← parseAttribute_isPanic b l, hpa]; rfl
      rw [h1] at hcontra
      exact absurd hcontra (by decide)

lemma parseInlineBlock_noPanic (a : List JValue) (h : entryNoBadD a = true) :
    (parseInlineBlock a).isPanic = false := by
  rcases a with _ | ⟨a0, rest⟩
  · rfl
  rcases rest with _ | ⟨a1, rest2⟩
  · rcases a0 <;> rfl
  rcases rest2 with _ | ⟨a2, rest3⟩
  · rcases a0 <;> rcases a1 <;> (try rfl)
    all_goals simp only [entryNoBadD] at h
    all_goals simp [parseInlineBlock, parseAttributes_noPanic _ _ h]
  · rcases a0 <;> rcases a1 <;> rfl

lemma parseInlineBlockList_noPanic : ∀ l : List JValue,
    l.all topEntryNoBadD = true → (parseInlineBlockList l).isPanic = false := by
  intro l
  induction l with
  | nil => intro _; rfl
  | cons hd tl ih =>
    intro hall
    rw [List.all_cons, Bool.and_eq_true] at hall
    rcases hd with _ | _ | _ | s | a2 | fs <;> (try rfl)
    have h1 : entryNoBadD a2 = true := hall.1
    cases hpb : parseInlineBlock a2 with
    | ok blk =>
      cases hrest : parseInlineBlockList tl with
      | ok res => simp [parseInlineBlockList, hpb, hrest, GoResult.isPanic]
      | err e => simp [parseInlineBlockList, hpb, hrest, GoResult.isPanic]
      | panic p =>
        have := ih hall.2
        rw [hrest] at this
        exact absurd this (by simp [GoResult.isPanic])
    | err e => simp [parseInlineBlockList, hpb, GoResult.isPanic]
    | panic p =>
      have := parseInlineBlock_noPanic a2 h1
      rw [hpb] at this
      exact absurd this (by simp [GoResult.isPanic])

lemma parseInlineBlocks_noPanic (raw : JValue) (h : topNoBadD raw = true) :
    (parseInlineBlocks raw).isPanic = false := by
  rcases raw with _ | _ | _ | s | a | fs <;> (try rfl)
  cases hae : a.isEmpty
  · simp only [topNoBadD] at h
    simp [parseInlineBlocks, hae, parseInlineBlockList_noPanic _ h]
  · simp [parseInlineBlocks, hae, GoResult.isPanic]

/-! ### Lemmas: how the exclusive link/user/date slots can fill up -/

lemma parseAttribute_excl (b : InlineBlock) (a : List JValue) (b2 : InlineBlock)
    (h : parseAttribute b a = .ok b2) :
    exclFieldCount b2 ≤ exclFieldCount b + (if exclAttrL a then 1 else 0) := by
  rcases a with _ | ⟨a0, rest⟩
  · exfalso; simp [parseAttribute] at h
  rcases a0 with _ | _ | _ | s | l | fs <;>
    (try (exfalso; simp [parseAttribute] at h; done))
  rcases rest with _ | ⟨a1, rest2⟩
  · -- flag switch: none of the exclusive fields change
    simp only [parseAttribute] at h
    split_ifs at h <;> (try (exfalso; simp at h; done)) <;>
      (cases h; simp [exclFieldCount, exclAttrL])
  rcases rest2 with _ | ⟨a2, rest3⟩
  · by_cases ha : s = "a"
    · subst ha
      rcases a1 <;> simp only [parseAttribute] at h <;>
        (try (exfalso; simp at h; done)) <;>
          (cases h; simp [exclFieldCount, exclAttrL]) <;>
            ((try split_ifs) <;> omega)
    · by_cases hu : s = "u"
      · subst hu
        rcases a1 <;> simp only [parseAttribute] at h <;>
          (try (exfalso; simp at h; done)) <;>
            (cases h; simp [exclFieldCount, exclAttrL]) <;>
              ((try split_ifs) <;> omega)
      · by_cases hd : s = "d"
        · subst hd
          rcases a1 <;> simp only [parseAttribute] at h <;>
            (try (exfalso; simp at h; done)) <;>
              (cases h; simp [exclFieldCount, exclAttrL]) <;>
                ((try split_ifs) <;> omega)
        · exfalso; simp [parseAttribute, ha, hu, hd] at h
  · exfalso; simp [parseAttribute] at h

lemma parseAttributes_excl : ∀ (attrs : List JValue) (b b2 : InlineBlock),
    parseAttributes b attrs = .ok b2 →
    exclFieldCount b2 ≤ exclFieldCount b + attrs.countP exclAttr := by
  intro attrs
  induction attrs with
  | nil =>
    intro b b2 h
    cases h
    simp
  | cons hd tl ih =>
    intro b b2 h
    rcases hd with _ | _ | _ | s | l | fs <;>
      (try (exfalso; simp [parseAttributes] at h; done))
    simp only [parseAttributes] at h
    cases hpa : parseAttribute b l with
    | ok bmid =>
      rw [hpa] at h
      have h1 := parseAttribute_excl b l bmid hpa
      have h2 := ih bmid b2 h
      rw [List.countP_cons]
      have hex : exclAttr (.jarr l) = exclAttrL l := rfl
      rw [hex]
      cases hc : exclAttrL l <;> simp [hc] at h1 ⊢ <;> omega
    | err e => rw [hpa] at h; exfalso; simp at h
    | panic p => rw [hpa] at h; exfalso; simp at h

lemma parseInlineBlock_excl (a : List JValue) (b : InlineBlock)
    (h : parseInlineBlock a = .ok b) :
    exclFieldCount b ≤ entryExclCount a := by
  rcases a with _ | ⟨a0, rest⟩
  · exfalso; simp [parseInlineBlock] at h
  rcases rest with _ | ⟨a1, rest2⟩
  · rcases a0 <;> (try (exfalso; simp [parseInlineBlock] at h; done))
    simp only [parseInlineBlock] at h
    cases h
    simp [exclFieldCount, entryExclCount]
  rcases rest2 with _ | ⟨a2, rest3⟩
  · rcases a0 <;> (try (exfalso; simp [parseInlineBlock] at h; done))
    rcases a1 <;> (try (exfalso; simp [parseInlineBlock] at h; done))
    simp only [parseInlineBlock] at h
    have := parseAttributes_excl _ _ _ h
    simpa [exclFieldCount, entryExclCount] using this
  · exfalso; simp [parseInlineBlock] at h

lemma parseInlineBlockList_excl : ∀ (l : List JValue) (spans : List InlineBlock),
    parseInlineBlockList l = .ok spans → l.all entryExclOk = true →
    spans.all (fun b => decide (exclFieldCount b ≤ 1)) = true := by
  intro l
  induction l with
  | nil =>
    intro spans h _
    cases h
    rfl
  | cons hd tl ih =>
    intro spans h hall
    rw [List.all_cons, Bool.and_eq_true] at hall
    rcases hd with _ | _ | _ | s | a2 | fs <;>
      (try (exfalso; simp [parseInlineBlockList] at h; done))
    simp only [parseInlineBlockList] at h
    cases hpb : parseInlineBlock a2 with
    | ok blk =>
      rw [hpb] at h
      cases hrest : parseInlineBlockList tl with
      | ok res =>
        rw [hrest] at h
        cases h
        rw [List.all_cons, Bool.and_eq_true]
        constructor
        · have hcount := parseInlineBlock_excl a2 blk hpb
          have hok : entryExclCount a2 ≤ 1 := by
            have := hall.1
            simpa [entryExclOk] using this
          simp
          omega
        · exact ih res hrest hall.2
      | err e => rw [hrest] at h; exfalso; simp at h
      | panic p => rw [hrest] at h; exfalso; simp at h
    | err e => rw [hpb] at h; exfalso; simp at h
    | panic p => rw [hpb] at h; exfalso; simp at h

lemma parseInlineBlocks_excl (raw : JValue) (spans : List InlineBlock)
    (h : parseInlineBlocks raw = .ok spans) (hok : exclPerEntryOk raw = true) :
    spans.all (fun b => decide (exclFieldCount b ≤ 1)) = true := by
  rcases raw with _ | _ | _ | s | a | fs <;>
    (try (exfalso; simp [parseInlineBlocks] at h; done))
  simp only [parseInlineBlocks] at h
  by_cases he : a.isEmpty
  · rw [if_pos he] at h; exfalso; simp at h
  · rw [if_neg he] at h
    exact parseInlineBlockList_excl a spans h (by simpa [exclPerEntryOk] using hok)

/-! ### Lemmas: merged record maps are key-wise last-write-wins -/

lemma mergeFold_proj {V : Type} (proj : RecordMap → GoMap V)
    (hproj : ∀ acc rm, proj (mergeStep acc rm) =
      .mk (overrideLookup ((proj acc).lookup) (proj rm))) :
    ∀ (rms : List RecordMap) (acc : RecordMap) (k : String),
      (proj (rms.foldl mergeStep acc)).lookup k =
        match lastLookup (rms.map proj) k with
        | some v => some v
        | none => (proj acc).lookup k := by
  intro rms
  induction rms with
  | nil => intro acc k; simp [lastLookup]
  | cons rm rest ih =>
    intro acc k
    rw [List.foldl_cons, ih (mergeStep acc rm) k]
    simp only [lastLookup, List.map_cons, List.reverse_cons, List.findSome?_append]
    cases hrest : (List.map proj rest).reverse.findSome? (fun m => m.lookup k) with
    | some v => simp [hrest]
    | none =>
      rw [hproj acc rm]
      show overrideLookup (proj acc).lookup (proj rm) k = _
      simp only [overrideLookup, hrest, Option.none_or, List.findSome?_cons,
        List.findSome?_nil]
      cases hm : (proj rm).lookup k <;> simp [hm]

lemma lastLookup_isSome {V : Type} (ms : List (GoMap V)) (k : String) :
    (lastLookup ms k).isSome = ms.any (fun m => (m.lookup k).isSome) := by
  unfold lastLookup
  rw [← List.any_reverse]
  generalize ms.reverse = l
  induction l with
  | nil => rfl
  | cons m rest ih =>
    cases h : m.lookup k <;> simp [List.findSome?_cons, h, List.any_cons, ih]

lemma merged_lookup_eq_lastLookup {V : Type} (proj : RecordMap → GoMap V)
    (hproj : ∀ acc rm, proj (mergeStep acc rm) =
      .mk (overrideLookup ((proj acc).lookup) (proj rm)))
    (hinit : (proj mergeInit).lookup = fun _ => none)
    (rms : List RecordMap) (k : String) :
    (proj (rms.foldl mergeStep mergeInit)).lookup k = lastLookup (rms.map proj) k := by
  rw [mergeFold_proj proj hproj rms mergeInit k, hinit]
  cases lastLookup (rms.map proj) k <;> rfl

/-! ### Lemmas: splitting a dotted path -/

lemma goSplitDot_ne_nil : ∀ cs : List Char, goSplitDot cs ≠ [] := by
  intro cs
  induction cs with
  | nil => simp [goSplitDot]
  | cons c rest ih =>
    by_cases h : c = '.'
    · simp [goSplitDot, h]
    · cases hg : goSplitDot rest with
      | nil => exact absurd hg ih
      | cons p ps => simp [goSplitDot, h, hg]

lemma dotJoin_goSplitDot : ∀ cs : List Char, dotJoin (goSplitDot cs) = cs := by
  intro cs
  induction cs with
  | nil => rfl
  | cons c rest ih =>
    cases hg : goSplitDot rest with
    | nil => exact absurd hg (goSplitDot_ne_nil rest)
    | cons p ps =>
      by_cases h : c = '.'
      · subst h
        have e1 : goSplitDot ('.' :: rest) = [] :: p :: ps := by simp [goSplitDot, hg]
        rw [e1]
        show '.' :: dotJoin (p :: ps) = '.' :: rest
        rw [← hg, ih]
      · have e1 : goSplitDot (c :: rest) = (c :: p) :: ps := by simp [goSplitDot, h, hg]
        rw [e1]
        have e2 : dotJoin ((c :: p) :: ps) = c :: dotJoin (p :: ps) := by cases ps <;> rfl
        rw [e2, ← hg, ih]

lemma goSplitDot_no_dot : ∀ (cs : List Char) (p : List Char),
    p ∈ goSplitDot cs → '.' ∉ p := by
  intro cs
  induction cs with
  | nil =>
    intro p hp
    simp [goSplitDot] at hp
    subst hp
    simp
  | cons c rest ih =>
    intro p hp
    cases hg : goSplitDot rest with
    | nil => exact absurd hg (goSplitDot_ne_nil rest)
    | cons q qs =>
      by_cases h : c = '.'
      · subst h
        rw [show goSplitDot ('.' :: rest) = [] :: q :: qs by simp [goSplitDot, hg]] at hp
        rcases List.mem_cons.mp hp with hp | hp
        · subst hp; simp
        · exact ih p (by rw [hg]; exact hp)
      · rw [show goSplitDot (c :: rest) = (c :: q) :: qs by simp [goSplitDot, h, hg]] at hp
        rcases List.mem_cons.mp hp with hp | hp
        · subst hp
          intro hmem
          rcases List.mem_cons.mp hmem with hc | hc
          · exact h hc.symm
          · exact ih q (by rw [hg]; exact List.mem_cons_self q qs) hc
        · exact ih p (by rw [hg]; exact List.mem_cons_of_mem q hp)

/-! ### Lemmas: merge algebra on disjoint maps -/

lemma GoMap.mk_congr {V : Type} {f g : String → Option V} (h : ∀ k, f k = g k) :
    GoMap.mk f = GoMap.mk g :=
  congrArg GoMap.mk (funext h)

lemma GoMap.lookup_mk {V : Type} (f : String → Option V) (k : String) :
    (GoMap.mk f).lookup k = f k := rfl

lemma RecordMap.ext5 {r1 r2 : RecordMap}
    (h1 : r1.blocks = r2.blocks) (h2 : r1.space = r2.space)
    (h3 : r1.users = r2.users) (h4 : r1.collections = r2.collections)
    (h5 : r1.collectionViews = r2.collectionViews) : r1 = r2 := by
  cases r1; cases r2; simp_all

lemma ovl_right_nest {V : Type} (g : String → Option V) (m : GoMap V) (k : String) :
    overrideLookup (overrideLookup (fun _ => none) (GoMap.mk g)) m k
      = overrideLookup g m k := by
  cases hm : m.lookup k <;> cases hg : g k <;>
    simp [overrideLookup, GoMap.lookup_mk, hm, hg]

lemma ovl_left_nest {V : Type} (x y z : GoMap V) (k : String) :
    overrideLookup (overrideLookup (fun _ => none) x)
        (GoMap.mk (overrideLookup (overrideLookup (fun _ => none) y) z)) k
      = overrideLookup (overrideLookup (overrideLookup (fun _ => none) x) y) z k := by
  cases hz : z.lookup k <;> cases hy : y.lookup k <;> cases hx : x.lookup k <;>
    simp only [overrideLookup, GoMap.lookup_mk, hz, hy, hx]

lemma ovl_comm {V : Type} (x y : GoMap V) (hd : GoMap.Disjoint x y) (k : String) :
    overrideLookup (overrideLookup (fun _ => none) y) x k
      = overrideLookup (overrideLookup (fun _ => none) x) y k := by
  rcases hd k with h | h
  · cases hy : y.lookup k <;> simp [overrideLookup, h, hy]
  · cases hx : x.lookup k <;> simp [overrideLookup, h, hx]

/-! ### Claim theorems -/

/-- C1: the consolidated RecordMap produced by `mergeRecordMaps` is
key-wise last-write-wins per category: in each of the five categories,
the merged value at any key equals the value held by the last partial
map in sequence order containing that key, and a key is present in the
result exactly when it is present in some input (so no category loses
keys present only in one input). -/
theorem mergeRecordMaps_lastWriteWins (rms : List RecordMap) :
    ∃ out, mergeRecordMaps rms = .ok out ∧ ∀ k : String,
      (out.blocks.lookup k = lastLookup (rms.map (fun rm => rm.blocks)) k ∧
        (out.blocks.lookup k).isSome =
          (rms.map (fun rm => rm.blocks)).any (fun m => (m.lookup k).isSome)) ∧
      (out.space.lookup k = lastLookup (rms.map (fun rm => rm.space)) k ∧
        (out.space.lookup k).isSome =
          (rms.map (fun rm => rm.space)).any (fun m => (m.lookup k).isSome)) ∧
      (out.users.lookup k = lastLookup (rms.map (fun rm => rm.users)) k ∧
        (out.users.lookup k).isSome =
          (rms.map (fun rm => rm.users)).any (fun m => (m.lookup k).isSome)) ∧
      (out.collections.lookup k = lastLookup (rms.map (fun rm => rm.collections)) k ∧
        (out.collections.lookup k).isSome =
          (rms.map (fun rm => rm.collections)).any (fun m => (m.lookup k).isSome)) ∧
      (out.collectionViews.lookup k = lastLookup (rms.map (fun rm => rm.collectionViews)) k ∧
        (out.collectionViews.lookup k).isSome =
          (rms.map (fun rm => rm.collectionViews)).any (fun m => (m.lookup k).isSome)) := by
  refine ⟨rms.foldl mergeStep mergeInit, rfl, fun k => ?_⟩
  have hb := merged_lookup_eq_lastLookup (fun rm => rm.blocks) (fun acc rm => rfl) rfl rms k
  have hs := merged_lookup_eq_lastLookup (fun rm => rm.space) (fun acc rm => rfl) rfl rms k
  have hu := merged_lookup_eq_lastLookup (fun rm => rm.users) (fun acc rm => rfl) rfl rms k
  have hc := merged_lookup_eq_lastLookup (fun rm => rm.collections) (fun acc rm => rfl) rfl rms k
  have hv := merged_lookup_eq_lastLookup (fun rm => rm.collectionViews) (fun acc rm => rfl) rfl rms k
  exact ⟨⟨hb, by rw [hb, lastLookup_isSome]⟩, ⟨hs, by rw [hs, lastLookup_isSome]⟩,
    ⟨hu, by rw [hu, lastLookup_isSome]⟩, ⟨hc, by rw [hc, lastLookup_isSome]⟩,
    ⟨hv, by rw [hv, lastLookup_isSome]⟩⟩

/-- C2: the pagination driver, run against the spec's stub server whose
cursor stacks across three calls are `[nonEmpty, nonEmpty, empty]`,
issues exactly three requests — the first with the requested block id,
the fixed limit 50 and an empty cursor, each later one carrying the
cursor of the previous response — accumulates exactly the three partial
record maps, stops although the server would serve a fourth page, and
`GetBlock` hands exactly those three maps to the record-map parser. -/
theorem getBlock_pagination_contract (blockID : String) (rm0 rm1 rm2 : RecordMap)
    (rfuel : Nat) :
    getBlockLoop (stubChunkServer rm0 rm1 rm2) 10 0 (initialChunkRequest blockID) [] [] =
      .ok ([rm0, rm1, rm2],
        [{ pageID := blockID, limit := 50, cursor := { stack := [] }, verticalColumns := false },
         { pageID := blockID, limit := 50, cursor := stubCursor1, verticalColumns := false },
         { pageID := blockID, limit := 50, cursor := stubCursor2, verticalColumns := false }]) ∧
    stubCursor1.stack.isEmpty = false ∧
    stubCursor2.stack.isEmpty = false ∧
    stubChunkServer rm0 rm1 rm2 3 = .ok { recordMap := rm0, cursor := stubCursor1 } ∧
    GetBlock (stubChunkServer rm0 rm1 rm2) 10 rfuel blockID =
      parseBlockFromRecordMaps rfuel blockID [rm0, rm1, rm2] :=
  ⟨rfl, rfl, rfl, rfl, rfl⟩

/-- C3 counterexample: a value of unexpected type at the date-attribute
position does NOT produce a returned decode error — the parse panics
(Go: a failed unchecked type assertion), refuting the claim that every
malformed input fails with a returned error. -/
theorem parseInlineBlocks_date_panic_cex :
    parseInlineBlocks (.jarr [.jarr [.jstr "x", .jarr [.jarr [.jstr "d", .jstr "y"]]]]) =
      .panic "interface conversion: interface is not map[string]interface" := rfl

/-- C3 (amended): the parse returns a span list exactly on grammar-
conforming input — an empty top-level array, a wrong arity at any
level, an unrecognized attribute code, or a value of unexpected type at
any position all make the parse fail with nothing dropped or defaulted
and no partial span list — and the failure is a returned decode error
rather than a panic whenever the input contains no date attribute
carrying a non-object value. -/
theorem parseInlineBlocks_error_policy (raw : JValue) :
    (parseInlineBlocks raw).isOk = goodTop raw ∧
    (topNoBadD raw = true → (parseInlineBlocks raw).isPanic = false) :=
  ⟨parseInlineBlocks_isOk raw, fun h => parseInlineBlocks_noPanic raw h⟩

/-- C3 witness: the amended theorem applied at a concrete input. -/
theorem parseInlineBlocks_error_policy_witness :
    topNoBadD (.jarr [.jarr [.jstr "hi"]]) = true ∧
    (parseInlineBlocks (.jarr [.jarr [.jstr "hi"]])).isPanic = false :=
  ⟨rfl, (parseInlineBlocks_error_policy (.jarr [.jarr [.jstr "hi"]])).2 rfl⟩

/-- C4: `mergeRecordMaps` is a pure total function — every input
sequence, the empty one included, yields a normally returned result
(the capacity hint `50*len(rms)-1` passed to `make` cannot fail, see
`mergeInit`) — and the empty sequence yields a record map whose five
category maps are all initialized (non-nil) and empty. -/
theorem mergeRecordMaps_total_and_initialized :
    (∀ rms : List RecordMap, ∃ out, mergeRecordMaps rms = .ok out) ∧
    ∃ out0, mergeRecordMaps [] = .ok out0 ∧
      out0.blocks.isNil = false ∧ out0.space.isNil = false ∧
      out0.users.isNil = false ∧ out0.collections.isNil = false ∧
      out0.collectionViews.isNil = false ∧
      (∀ k, out0.blocks.lookup k = none) ∧ (∀ k, out0.space.lookup k = none) ∧
      (∀ k, out0.users.lookup k = none) ∧ (∀ k, out0.collections.lookup k = none) ∧
      (∀ k, out0.collectionViews.lookup k = none) :=
  ⟨fun rms => ⟨rms.foldl mergeStep mergeInit, rfl⟩,
   mergeInit, rfl, rfl, rfl, rfl, rfl, rfl,
   fun _ => rfl, fun _ => rfl, fun _ => rfl, fun _ => rfl, fun _ => rfl⟩

/-- C5 counterexample: a successful parse CAN set two of the exclusive
fields at once — the attribute list `[["a","u1"],["u","u2"]]` yields a
span with both Link and UserID non-empty, refuting the claim that at
most one is ever set. -/
theorem parseInlineBlocks_two_exclusive_cex :
    parseInlineBlocks
        (.jarr [.jarr [.jstr "t",
          .jarr [.jarr [.jstr "a", .jstr "u1"], .jarr [.jstr "u", .jstr "u2"]]]]) =
      .ok [{ text := "t", attrFlags := 0, link := "u1", userID := "u2", date := none }] ∧
    exclFieldCount { text := "t", attrFlags := 0, link := "u1", userID := "u2", date := none } = 2 :=
  ⟨rfl, rfl⟩

/-- C5 (amended): the parser does not itself enforce exclusivity; but
for every successfully parsed input in which each span entry carries at
most one exclusive (link/user/date) attribute entry — which is the only
shape the wire encoding produces, each occupying the same attribute
slot — every resulting span has at most one of {Link, UserID, Date}
set. -/
theorem parseInlineBlocks_exclusive_fields (raw : JValue) (spans : List InlineBlock)
    (h : parseInlineBlocks raw = .ok spans) (hok : exclPerEntryOk raw = true) :
    spans.all (fun b => decide (exclFieldCount b ≤ 1)) = true :=
  parseInlineBlocks_excl raw spans h hok

/-- C5 witness: the amended theorem applied at a concrete input with a
link attribute. -/
theorem parseInlineBlocks_exclusive_fields_witness :
    parseInlineBlocks (.jarr [.jarr [.jstr "click", .jarr [.jarr [.jstr "a", .jstr "http"]]]]) =
      .ok [{ text := "click", attrFlags := 0, link := "http", userID := "", date := none }] ∧
    exclPerEntryOk (.jarr [.jarr [.jstr "click", .jarr [.jarr [.jstr "a", .jstr "http"]]]]) = true ∧
    ([{ text := "click", attrFlags := 0, link := "http", userID := "", date := none }] :
      List InlineBlock).all (fun b => decide (exclFieldCount b ≤ 1)) = true :=
  ⟨rfl, rfl,
   parseInlineBlocks_exclusive_fields
     (.jarr [.jarr [.jstr "click", .jarr [.jarr [.jstr "a", .jstr "http"]]]]) _ rfl rfl⟩

/-- C6: block-tree resolution from the merged record map fails with the
"missing block id in block list" error whenever the requested root id
is absent from the block category of the merged map; and when the root
is present with a block value whose resolution (of all referenced
children, recursively) succeeds, it returns exactly the fully-linked
tree the resolver produced. -/
theorem parseBlockFromRecordMaps_root_contract (rfuel : Nat) (blockID : String)
    (responses : List RecordMap) (out : RecordMap)
    (hmerge : mergeRecordMaps responses = .ok out) :
    (out.blocks.lookup blockID = none →
      parseBlockFromRecordMaps rfuel blockID responses =
        .error "notion: missing block id in block list") ∧
    (∀ bwr blk res, out.blocks.lookup blockID = some bwr → bwr.value = some blk →
      ResolveBlock (recordMapBlocks out) rfuel blk = .ok res →
      parseBlockFromRecordMaps rfuel blockID responses = .ok res) := by
  have hout : List.foldl mergeStep mergeInit responses = out := by
    simpa [mergeRecordMaps] using hmerge
  constructor
  · intro habs
    simp [parseBlockFromRecordMaps, mergeRecordMaps, hout, habs]
  · intro bwr blk res h1 h2 h3
    simp [parseBlockFromRecordMaps, mergeRecordMaps, hout, h1, h2, h3]

/-- C6 witness: the contract applied to a concrete two-block fetch. -/
theorem parseBlockFromRecordMaps_root_contract_witness :
    mergeRecordMaps [wRecordMap] = .ok wMerged ∧
    wMerged.blocks.lookup "r" = some wBWRr ∧
    wBWRr.value = some wBlockR ∧
    ResolveBlock (recordMapBlocks wMerged) 2 wBlockR = .ok wResolved ∧
    parseBlockFromRecordMaps 2 "r" [wRecordMap] = .ok wResolved :=
  ⟨rfl, rfl, rfl, rfl,
   (parseBlockFromRecordMaps_root_contract 2 "r" [wRecordMap] wMerged rfl).2
     wBWRr wBlockR wResolved rfl rfl rfl⟩

/-- C7: `UpdateBlock` builds exactly one operation — id = the block id,
table "block", path = the dotted path split at each dot (the parts
contain no dot and rejoin with dots to the original path), command
"set", args `[[value]]` — submits it as a one-operation transaction,
and its outcome is exactly the transport's outcome on that single
request (no read-modify-write, no version check, no local validation:
the error comes back as-is and nothing else is consulted). -/
theorem updateBlock_single_set_operation
    (post : submitTransactionRequest → Except String String)
    (blockID path value : String) :
    updateBlockRequest blockID path value =
      { operations := [⟨blockID, "block", stringsSplitDot path, "set", [[value]]⟩] } ∧
    dotJoin ((stringsSplitDot path).map String.data) = path.data ∧
    (∀ part, part ∈ stringsSplitDot path → '.' ∉ part.data) ∧
    (∀ e, post (updateBlockRequest blockID path value) = .error e →
      UpdateBlock post blockID path value = some e) ∧
    (∀ bdy, post (updateBlockRequest blockID path value) = .ok bdy →
      UpdateBlock post blockID path value = none) := by
  refine ⟨rfl, ?_, ?_, ?_, ?_⟩
  · show dotJoin (((goSplitDot path.data).map String.mk).map String.data) = path.data
    rw [List.map_map]
    have : (String.data ∘ String.mk) = id := funext fun l => rfl
    rw [this, List.map_id]
    exact dotJoin_goSplitDot path.data
  · intro part hp
    rcases List.mem_map.mp hp with ⟨cs, hcs, hmk⟩
    have := goSplitDot_no_dot path.data cs hcs
    rw [← hmk]
    exact this
  · intro e he
    simp [UpdateBlock, he]
  · intro bdy hb
    simp [UpdateBlock, hb]

/-- C7 witness: the contract applied to a concrete id, path and value
against a transport that fails, showing the error surfaced as-is. -/
theorem updateBlock_single_set_operation_witness :
    (fun (_ : submitTransactionRequest) => (.error "boom" : Except String String))
        (updateBlockRequest "b1" "properties.title" "x") = .error "boom" ∧
    UpdateBlock (fun _ => .error "boom") "b1" "properties.title" "x" = some "boom" ∧
    stringsSplitDot "properties.title" = ["properties", "title"] :=
  ⟨rfl,
   (updateBlock_single_set_operation (fun _ => .error "boom") "b1" "properties.title" "x").2.2.2.1
     "boom" rfl,
   rfl⟩

/-- C8: for pairwise-disjoint record maps, merging is associative and
commutative: merging `[A, B]` and then the result with `[C]` equals the
one-pass merge of `[A, B, C]`, equals merging `[A]` with the merge of
`[B, C]`; and the two-map merge is commutative (`[B, A]` gives the same
consolidated map as `[A, B]`). -/
theorem mergeRecordMaps_assoc_comm_disjoint (A B C : RecordMap)
    (hAB : A.Disjoint B) (hAC : A.Disjoint C) (hBC : B.Disjoint C) :
    ∀ ab bc abc : RecordMap,
      mergeRecordMaps [A, B] = .ok ab →
      mergeRecordMaps [B, C] = .ok bc →
      mergeRecordMaps [A, B, C] = .ok abc →
      mergeRecordMaps [ab, C] = .ok abc ∧
      mergeRecordMaps [A, bc] = .ok abc ∧
      mergeRecordMaps [B, A] = .ok ab := by
  intro ab bc abc hab hbc habc
  have hab' : List.foldl mergeStep mergeInit [A, B] = ab := by
    simpa [mergeRecordMaps] using hab
  have hbc' : List.foldl mergeStep mergeInit [B, C] = bc := by
    simpa [mergeRecordMaps] using hbc
  have habc' : List.foldl mergeStep mergeInit [A, B, C] = abc := by
    simpa [mergeRecordMaps] using habc
  subst hab' hbc' habc'
  refine ⟨?_, ?_, ?_⟩
  · exact congrArg Except.ok (RecordMap.ext5
      (GoMap.mk_congr (fun k => ovl_right_nest _ _ k))
      (GoMap.mk_congr (fun k => ovl_right_nest _ _ k))
      (GoMap.mk_congr (fun k => ovl_right_nest _ _ k))
      (GoMap.mk_congr (fun k => ovl_right_nest _ _ k))
      (GoMap.mk_congr (fun k => ovl_right_nest _ _ k)))
  · exact congrArg Except.ok (RecordMap.ext5
      (GoMap.mk_congr (fun k => ovl_left_nest _ _ _ k))
      (GoMap.mk_congr (fun k => ovl_left_nest _ _ _ k))
      (GoMap.mk_congr (fun k => ovl_left_nest _ _ _ k))
      (GoMap.mk_congr (fun k => ovl_left_nest _ _ _ k))
      (GoMap.mk_congr (fun k => ovl_left_nest _ _ _ k)))
  · exact congrArg Except.ok (RecordMap.ext5
      (GoMap.mk_congr (fun k => ovl_comm _ _ hAB.1 k))
      (GoMap.mk_congr (fun k => ovl_comm _ _ hAB.2.1 k))
      (GoMap.mk_congr (fun k => ovl_comm _ _ hAB.2.2.1 k))
      (GoMap.mk_congr (fun k => ovl_comm _ _ hAB.2.2.2.1 k))
      (GoMap.mk_congr (fun k => ovl_comm _ _ hAB.2.2.2.2 k)))

/-- C8 witness: the merge algebra applied to three concrete disjoint
record maps with keys "a", "b" and "c". -/
theorem mergeRecordMaps_assoc_comm_disjoint_witness :
    mergeRecordMaps [w8AB, w8C] = .ok w8ABC ∧
    mergeRecordMaps [w8A, w8BC] = .ok w8ABC ∧
    mergeRecordMaps [w8B, w8A] = .ok w8AB := by
  have hAB : w8A.Disjoint w8B := by
    refine ⟨fun k => ?_, fun k => Or.inl rfl, fun k => Or.inl rfl,
      fun k => Or.inl rfl, fun k => Or.inl rfl⟩
    by_cases h : k = "a"
    · subst h; exact Or.inr rfl
    · exact Or.inl (by simp [w8A, GoMap.lookup, h])
  have hAC : w8A.Disjoint w8C := by
    refine ⟨fun k => ?_, fun k => Or.inl rfl, fun k => Or.inl rfl,
      fun k => Or.inl rfl, fun k => Or.inl rfl⟩
    by_cases h : k = "a"
    · subst h; exact Or.inr rfl
    · exact Or.inl (by simp [w8A, GoMap.lookup, h])
  have hBC : w8B.Disjoint w8C := by
    refine ⟨fun k => ?_, fun k => Or.inl rfl, fun k => Or.inl rfl,
      fun k => Or.inl rfl, fun k => Or.inl rfl⟩
    by_cases h : k = "b"
    · subst h; exact Or.inr rfl
    · exact Or.inl (by simp [w8B, GoMap.lookup, h])
  exact mergeRecordMaps_assoc_comm_disjoint w8A w8B w8C hAB hAC hBC
    w8AB w8BC w8ABC rfl rfl rfl

/-- C9: the spec's inline parse example — `[["hello"], ["world",
[["b"]]]]` parses successfully into exactly two spans in order, a plain
"hello" span and a "world" span with only the bold flag set. -/
theorem parseInlineBlocks_hello_world_example :
    parseInlineBlocks
        (.jarr [.jarr [.jstr "hello"], .jarr [.jstr "world", .jarr [.jarr [.jstr "b"]]]]) =
      .ok [{ text := "hello", attrFlags := 0, link := "", userID := "", date := none },
           { text := "world", attrFlags := AttrBold, link := "", userID := "", date := none }] :=
  rfl

/-- C10: `GetPage` always returns a non-nil Page pointer; when the
underlying `GetBlock` fails, the error is propagated unchanged while
the returned Page wraps a nil Block, and when it succeeds the Page
wraps the returned block. -/
theorem getPage_nonnil_on_error (server : ChunkServer) (fuel rfuel : Nat)
    (pageId : String) :
    ((GetPage server fuel rfuel pageId).1).isSome = true ∧
    (∀ e, GetBlock server fuel rfuel pageId = .error e →
      GetPage server fuel rfuel pageId = (some { block := none }, some e)) ∧
    (∀ b, GetBlock server fuel rfuel pageId = .ok b →
      GetPage server fuel rfuel pageId = (some { block := some b }, none)) := by
  refine ⟨?_, ?_, ?_⟩
  · unfold GetPage
    cases GetBlock server fuel rfuel pageId <;> rfl
  · intro e he
    unfold GetPage
    rw [he]
  · intro b hb
    unfold GetPage
    rw [hb]

/-- C10 witness: a failing transport, showing the non-nil Page wrapping
a nil block together with the unchanged error. -/
theorem getPage_nonnil_on_error_witness :
    GetBlock failChunkServer 1 0 "p" = .error "boom" ∧
    GetPage failChunkServer 1 0 "p" = (some { block := none }, some "boom") :=
  ⟨rfl, (getPage_nonnil_on_error failChunkServer 1 0 "p").2.1 "boom" rfl⟩

end Notion
